import Mathlib

/-! pcl2 core: structured error report and shared matrix handle.

Part 1 embeds `core/include/pcl/exception.h`: the class `pcl::PCLException`,
its accessors, `detailedMessage` and the raising helper `throwPCLException`.

Part 2 embeds the matrix handle declared in `core/include/pcl2/matrix.h`.
That header only declares `pcl2::Mat`; the bodies of `copy`, `rows`, `cols`
and of the row-view operator, and the class `core::MatImpl`, are modelled
from the specification of the handle and of its storage.

Conventions of the embedding
* `std::string` values are `String`; the size in bytes is
  `String.utf8ByteSize`. Characters read through a `const char*` (the buffer
  `msg`, the result of `what ()`) are the `String` up to its first NUL, `cstr`.
* `unsigned` line numbers are `Nat`: the code does no arithmetic on them, it
  stores them, compares them with `0` and prints them in decimal.
* `std::stringstream` is an explicit accumulator threaded through the
  successive `<<` insertions.
* Shared storage is an explicit arena; every operation that allocates or
  writes takes the arena and gives the new one back.
-/

namespace pcl

/-! ## `std::stringstream`, as far as `detailedMessage` uses it -/

/-- Output string stream: the characters inserted so far. -/
structure StringStream where
  buf : String
deriving Repr, DecidableEq

/-- A default-constructed `std::stringstream` holds no characters. -/
def StringStream.empty : StringStream := ⟨""⟩

/-- Insertion of a string: `sstream << s`. -/
def StringStream.put (ss : StringStream) (s : String) : StringStream :=
  ⟨ss.buf ++ s⟩

/-- Insertion of an `unsigned`: `sstream << n`, printed in decimal. -/
def StringStream.putUnsigned (ss : StringStream) (n : Nat) : StringStream :=
  ⟨ss.buf ++ Nat.repr n⟩

/-- Contents of the stream: `sstream.str ()`. -/
def StringStream.str (ss : StringStream) : String := ss.buf

/-! ## `class PCLException` -/

/-- The exception object: the `std::runtime_error` base keeps the description
(returned by `what ()`), the derived class adds the three location fields. -/
structure PCLException where
  what : String
  file_name_ : String
  function_name_ : String
  line_number_ : Nat
deriving Repr, DecidableEq

/-- Constructor `PCLException (error_description, file_name, function_name,
line_number)` with all four arguments given: the description goes to the
base class, the other three initialise the members of the same name. -/
def PCLException.new (error_description file_name function_name : String)
    (line_number : Nat) : PCLException :=
  ⟨error_description, file_name, function_name, line_number⟩

/-- The same constructor called with the description alone: the C++
declaration supplies `file_name = ""`, `function_name = ""` and
`line_number = 0`. -/
def PCLException.ofDescription (error_description : String) : PCLException :=
  PCLException.new error_description "" "" 0

/-- Accessor `getFileName ()`. -/
def PCLException.getFileName (e : PCLException) : String := e.file_name_

/-- Accessor `getFunctionName ()`. -/
def PCLException.getFunctionName (e : PCLException) : String := e.function_name_

/-- Accessor `getLineNumber ()`. -/
def PCLException.getLineNumber (e : PCLException) : Nat := e.line_number_

/-- Reading characters as a C string (`const char*`): the characters ahead of
the first NUL. The conversion of the buffer `msg` to `std::string` reads this
way, and so does the stream insertion of `what ()`, which
`std::runtime_error` returns as a `const char*`. -/
def cstr (s : String) : String :=
  ⟨s.data.takeWhile (fun ch => ch != Char.ofNat 0)⟩

/-- Method `detailedMessage ()`: the function name, then the file name, then
(inside the file-name branch) the line number, then `":"` and `what ()`. The
three members are `std::string`s and are inserted whole; `what ()` is a
`const char*`, so the description is inserted up to its first NUL. -/
def PCLException.detailedMessage (e : PCLException) : String :=
  let sstream := StringStream.empty
  let sstream :=
    if e.function_name_ != "" then
      (sstream.put e.function_name_).put " "
    else sstream
  let sstream :=
    if e.file_name_ != "" then
      let sstream := ((sstream.put "in ").put e.file_name_).put " "
      if e.line_number_ != 0 then
        ((sstream.put "@ ").putUnsigned e.line_number_).put " "
      else sstream
    else sstream
  let sstream := (sstream.put ":").put (cstr e.what)
  sstream.str

/-! ## `throwPCLException` -/

/-- How a call of a `void` function that may throw can end. `undefined` is
the overflow of the fixed scratch buffer, to which C++ gives no meaning. -/
inductive Outcome where
  | returned
  | raised (e : PCLException)
  | undefined
deriving Repr, DecidableEq

/-- Size of the scratch buffer `char msg[1024]`. -/
def msgCapacity : Nat := 1024

/-- Function `throwPCLException (function, file, line, format, ...)`.

The C library renderer `vsprintf` is a parameter: from the format string and
the variable arguments it gives the characters it writes ahead of the
terminating NUL. They fit in `msg` together with the terminator iff their
number is below `msgCapacity`; then the exception is built from `msg`, read as
a C string, with the arguments in the constructor order
`(msg, file, function, line)`, and thrown. -/
def throwPCLException {Args : Type} (vsprintf : String → Args → String)
    (function file : String) (line : Nat) (format : String) (args : Args) :
    Outcome :=
  let msg := vsprintf format args
  if msg.utf8ByteSize < msgCapacity then
    Outcome.raised (PCLException.new (cstr msg) file function line)
  else
    Outcome.undefined

/-- A renderer for format strings without conversion specifiers: what
`vsprintf` writes is the format string itself and no argument is consumed. -/
def vsprintfPlain (format : String) (_args : Unit) : String := format

/-- The combined message in the layout with three independent optional
segments: each location field contributes its own segment exactly when that
field is present, whatever the other two are. This follows the wording of the
specification, for comparison with `PCLException.detailedMessage`. -/
def independentSegments (e : PCLException) : String :=
  (if e.function_name_ != "" then e.function_name_ ++ " " else "")
    ++ (if e.file_name_ != "" then "in " ++ e.file_name_ ++ " " else "")
    ++ (if e.line_number_ != 0 then "@ " ++ Nat.repr e.line_number_ ++ " " else "")
    ++ ":" ++ e.what

/-- The description `std::string ("bad\0index", 9)`: nine characters, the
fourth of which is NUL. -/
def nulDescription : String :=
  "bad" ++ String.singleton (Char.ofNat 0) ++ "index"

end pcl

namespace pcl2

/-! ## Matrix storage and the arena holding it -/

/-- Modelled from the spec: the failure classes of the error-handling design
that the handle operations can end in. `invariantViolation` is the structured
error report raised for a precondition that does not hold (an out-of-range
view index); `fatal` is the programming-error class, reached when a handle
does not reference a live, addressable storage. -/
inductive MatError where
  | invariantViolation
  | fatal
deriving Repr, DecidableEq

/-- Modelled from the spec: Matrix Storage, the class `core::MatImpl` that
`matrix.h` only forward-declares. A storage has a row count and a column count
and is either an owned contiguous buffer (row-major, `rows * cols` elements) or
a re-mapping table over another storage, `src`, whose row `rowMap[i]` is row
`i` of the view. -/
inductive MatImpl (α : Type) where
  | owned (rows cols : Nat) (buf : List α)
  | view (src : Nat) (rowMap : List Nat) (cols : Nat)
deriving Repr, DecidableEq

/-- Modelled from the spec: the row count of a storage. -/
def MatImpl.rows {α : Type} : MatImpl α → Nat
  | .owned rows _ _ => rows
  | .view _ rowMap _ => rowMap.length

/-- Modelled from the spec: the column count of a storage. -/
def MatImpl.cols {α : Type} : MatImpl α → Nat
  | .owned _ cols _ => cols
  | .view _ _ cols => cols

/-- Modelled from the spec: the arena of storage objects (design note on
implicit sharing). The newest storage is the head of the list and the storage
with reference `p` is the one that has `p` storages behind it, so a reference
stays stable when storage is allocated. Nothing is ever freed: a storage lives
at least as long as every handle and view that refers to it. -/
abbrev Arena (α : Type) := List (MatImpl α)

/-- Modelled from the spec: dereferencing a storage reference; `none` for a
reference to no storage (a null pointer). -/
def implAt {α : Type} : Arena α → Nat → Option (MatImpl α)
  | [], _ => none
  | s :: rest, p => if p = rest.length then some s else implAt rest p

/-- Modelled from the spec: element read by row and column through storage
`p`. An owned buffer yields its element; a view forwards the read to row
`rowMap[r]` of its source, which is older than the view. `none` when `(r, c)`
is out of bounds or the reference is dead. -/
def elemAt {α : Type} : Arena α → Nat → Nat → Nat → Option α
  | [], _, _, _ => none
  | s :: rest, p, r, c =>
    if p = rest.length then
      match s with
      | .owned rows cols buf =>
        if r < rows ∧ c < cols then buf[r * cols + c]? else none
      | .view src rowMap cols =>
        if c < cols then
          match rowMap[r]? with
          | some r' => elemAt rest src r' c
          | none => none
        else none
    else elemAt rest p r c

/-- Modelled from the spec: element write by row and column through storage
`p`, giving the arena after the write. An owned buffer is updated in place; a
view forwards the write to row `rowMap[r]` of its source, so no element is ever
stored in a view. `none` when `(r, c)` is out of bounds or the reference is
dead. -/
def setElem {α : Type} : Arena α → Nat → Nat → Nat → α → Option (Arena α)
  | [], _, _, _, _ => none
  | s :: rest, p, r, c, v =>
    if p = rest.length then
      match s with
      | .owned rows cols buf =>
        if r < rows ∧ c < cols ∧ r * cols + c < buf.length then
          some (.owned rows cols (buf.set (r * cols + c) v) :: rest)
        else none
      | .view src rowMap cols =>
        if c < cols then
          match rowMap[r]? with
          | some r' => (setElem rest src r' c v).map (fun rest' => s :: rest')
          | none => none
        else none
    else (setElem rest p r c v).map (fun rest' => s :: rest')

/-- Modelled from the spec: the storage invariant. For an owned buffer, row
count times column count is the number of addressable elements; for a view,
the source is a live older storage with the same column count and every entry
of the re-mapping table is a row of the source. -/
def wellFormed {α : Type} : Arena α → Bool
  | [] => true
  | .owned rows cols buf :: rest => buf.length == rows * cols && wellFormed rest
  | .view src rowMap cols :: rest =>
    (match implAt rest src with
     | some s => s.cols == cols && rowMap.all (fun k => decide (k < s.rows))
     | none => false) && wellFormed rest

/-! ## `class Mat` -/

/-- The handle `pcl2::Mat`: its one member `matrix_ptr_`, the shared pointer
to the implementation, here a reference into the arena. -/
structure Mat where
  matrix_ptr_ : Nat
deriving Repr, DecidableEq

/-- Modelled from the spec: `Mat::rows ()`, the number of rows of the
referenced storage; `none` when the handle references no storage. -/
def Mat.rows {α : Type} (heap : Arena α) (H : Mat) : Option Nat :=
  (implAt heap H.matrix_ptr_).map MatImpl.rows

/-- Modelled from the spec: `Mat::cols ()`, the number of columns of the
referenced storage; `none` when the handle references no storage. -/
def Mat.cols {α : Type} (heap : Arena α) (H : Mat) : Option Nat :=
  (implAt heap H.matrix_ptr_).map MatImpl.cols

/-- Modelled from the spec: reading the cells numbered `ks` one after the
other; the whole read fails as soon as one cell cannot be read. -/
def readCells {α : Type} (f : Nat → Option α) : List Nat → Option (List α)
  | [] => some []
  | k :: ks =>
    match f k, readCells f ks with
    | some x, some xs => some (x :: xs)
    | _, _ => none

/-- Modelled from the spec: `Mat::copy ()`. It allocates a new owned storage
of identical shape, duplicates every element value of the source into it (cell
`k` of the row-major buffer is element `(k / cols, k % cols)`), and returns
the new arena with a handle to the new storage. The source is not written. -/
def Mat.copy {α : Type} (heap : Arena α) (H : Mat) : Except MatError (Arena α × Mat) :=
  match implAt heap H.matrix_ptr_ with
  | some s =>
    match readCells (fun k => elemAt heap H.matrix_ptr_ (k / s.cols) (k % s.cols))
        (List.range (s.rows * s.cols)) with
    | some buf => .ok (.owned s.rows s.cols buf :: heap, ⟨heap.length⟩)
    | none => .error .fatal
  | none => .error .fatal

/-- Modelled from the spec: the index matrix is read once, fully, while the
view is built: entry `(i, 0)` for every row `i` of the `N` by `1` matrix of
integers. -/
def readIndices (iheap : Arena Int) (indices : Mat) : Option (List Int) :=
  match implAt iheap indices.matrix_ptr_ with
  | some s => readCells (fun i => elemAt iheap indices.matrix_ptr_ i 0) (List.range s.rows)
  | none => none

/-- Modelled from the spec: the row-view operator `Mat::operator ()
(const TypedMat<int> & indices)`, called `view` in the specification. The
index matrix lives in an arena of integer storage. Every index must be a valid
row index of the source, `0 ≤ index < rows ()`, otherwise the invariant
violation is raised and no matrix is made. On success a new view storage is
allocated whose re-mapping table is the captured index sequence, in its order
and with its repetitions, over the column count of the source; no element is
duplicated and the source is not written. -/
def Mat.view {α : Type} (heap : Arena α) (H : Mat) (iheap : Arena Int) (indices : Mat) :
    Except MatError (Arena α × Mat) :=
  match implAt heap H.matrix_ptr_, readIndices iheap indices with
  | some s, some idx =>
    if idx.all (fun k => decide (0 ≤ k ∧ k < (s.rows : Int))) then
      .ok (.view H.matrix_ptr_ (idx.map Int.toNat) s.cols :: heap, ⟨heap.length⟩)
    else .error .invariantViolation
  | _, _ => .error .fatal

/-! ## Concrete arenas used to exercise the operations -/

/-- A 3 by 2 matrix with rows `(10, 11)`, `(20, 21)`, `(30, 31)`. -/
def demoHeap : Arena Int := [MatImpl.owned 3 2 [10, 11, 20, 21, 30, 31]]

/-- The handle of the matrix in `demoHeap`. -/
def demoH : Mat := ⟨0⟩

/-- The 3 by 1 index matrix `[2, 0, 2]`. -/
def demoIndexHeap : Arena Int := [MatImpl.owned 3 1 [2, 0, 2]]

/-- The handle of the index matrix, in each of the index arenas below. -/
def demoI : Mat := ⟨0⟩

/-- The entries of the index matrix `[2, 0, 2]` by position. -/
def demoIx (i : Nat) : Int := [2, 0, 2].getD i 0

/-- The 1 by 1 index matrix `[3]`: the row count of `demoH`. -/
def tooLargeIndexHeap : Arena Int := [MatImpl.owned 1 1 [3]]

/-- The 1 by 1 index matrix `[-1]`. -/
def negativeIndexHeap : Arena Int := [MatImpl.owned 1 1 [-1]]

end pcl2

/-! # Part 1: theorems about the structured error report -/

namespace pcl

/-- If the buffer holds no NUL character, reading it as a C string gives all
of it. -/
theorem cstr_of_no_nul (s : String) (h : Char.ofNat 0 ∉ s.data) : cstr s = s := by
  apply String.ext
  simp only [cstr]
  rw [List.takeWhile_eq_self_iff]
  intro ch hch
  simp only [bne_iff_ne, ne_eq]
  intro heq
  exact h (heq ▸ hch)

/-- C1 as stated fails: for the description `bad\0index` (with function `f`,
file `m.cpp`, line 10) the message is `f in m.cpp @ 10 :bad`, which is not
`f in m.cpp @ 10 :` followed by the whole description. -/
theorem detailedMessage_full_fails_at_nul :
    ("f" ≠ "" ∧ "m.cpp" ≠ "" ∧ (10 : Nat) ≠ 0) ∧
    (PCLException.new nulDescription "m.cpp" "f" 10).detailedMessage = "f in m.cpp @ 10 :bad"
    ∧ (PCLException.new nulDescription "m.cpp" "f" 10).detailedMessage
        ≠ "f" ++ " in " ++ "m.cpp" ++ " @ " ++ Nat.repr 10 ++ " :" ++ nulDescription := by
  decide

/-- C1, amended: for every description `d`, non-empty function name `f`,
non-empty file name `m` and non-zero line number `n`, the detailed message of
`PCLException (d, m, f, n)` is `f`, `" in "`, `m`, `" @ "`, the decimal form of
`n`, `" :"` and then `d` up to its first NUL character, in that order: one
space between the segments, a space ahead of the colon and none after it. When
`d` holds no NUL character the message ends with the whole of `d`. -/
theorem detailedMessage_full (d f m : String) (n : Nat)
    (hf : f ≠ "") (hm : m ≠ "") (hn : n ≠ 0) :
    (PCLException.new d m f n).detailedMessage
        = f ++ " in " ++ m ++ " @ " ++ Nat.repr n ++ " :" ++ cstr d
    ∧ (Char.ofNat 0 ∉ d.data →
        (PCLException.new d m f n).detailedMessage
          = f ++ " in " ++ m ++ " @ " ++ Nat.repr n ++ " :" ++ d) := by
  have hmsg : (PCLException.new d m f n).detailedMessage
      = f ++ " in " ++ m ++ " @ " ++ Nat.repr n ++ " :" ++ cstr d := by
    apply String.ext
    simp [PCLException.detailedMessage, PCLException.new, StringStream.put,
      StringStream.putUnsigned, StringStream.str, StringStream.empty, hf, hm, hn]
  refine ⟨hmsg, ?_⟩
  intro hd
  rw [hmsg, cstr_of_no_nul d hd]

/-- C1, amended, at file `m.cpp`, function `f`, line 10, description
`bad index`: the message is `f in m.cpp @ 10 :bad index`. -/
theorem detailedMessage_full_witness :
    ("f" ≠ "" ∧ "m.cpp" ≠ "" ∧ (10 : Nat) ≠ 0) ∧
    (PCLException.new "bad index" "m.cpp" "f" 10).detailedMessage
      = "f in m.cpp @ 10 :bad index" :=
  ⟨by decide,
   ((detailedMessage_full "bad index" "f" "m.cpp" 10
      (by decide) (by decide) (by decide)).1).trans (by decide)⟩

/-- C2 as stated fails: the exception constructed from the description
`bad\0index` alone has the detailed message `:bad`, which is not `":"` followed
by the whole description. -/
theorem detailedMessage_bare_fails_at_nul :
    (PCLException.ofDescription nulDescription).detailedMessage = ":bad"
    ∧ (PCLException.ofDescription nulDescription).detailedMessage
        ≠ ":" ++ nulDescription := by
  decide

/-- C2, amended: an exception constructed from the description alone (file
name and function name defaulting to the empty string, line number to 0) has
the detailed message `":"` followed by the description up to its first NUL
character, with nothing ahead of the colon; when the description holds no NUL
character that is `":"` followed by the whole description. -/
theorem detailedMessage_bare (d : String) :
    (PCLException.ofDescription d).detailedMessage = ":" ++ cstr d
    ∧ (Char.ofNat 0 ∉ d.data → (PCLException.ofDescription d).detailedMessage = ":" ++ d) := by
  have hmsg : (PCLException.ofDescription d).detailedMessage = ":" ++ cstr d := by
    apply String.ext
    simp [PCLException.detailedMessage, PCLException.ofDescription, PCLException.new,
      StringStream.put, StringStream.str, StringStream.empty]
  refine ⟨hmsg, ?_⟩
  intro hd
  rw [hmsg, cstr_of_no_nul d hd]

/-- C2, amended, at the description `bad index`, which holds no NUL
character: the message is `:bad index`. -/
theorem detailedMessage_bare_witness :
    Char.ofNat 0 ∉ "bad index".data
    ∧ (PCLException.ofDescription "bad index").detailedMessage = ":bad index" :=
  ⟨by decide, ((detailedMessage_bare "bad index").2 (by decide)).trans (by decide)⟩

/-- C3 as stated fails, in two places. With function name `f`, an empty file
name and line number 10 the code prints `f :bad index`, without the line
segment, whereas three independent segments would give `f @ 10 :bad index`.
And the description `bad\0index` is printed as `bad` only, so the message does
not end with `":"` followed by the whole description. -/
theorem line_segment_not_independent :
    ((PCLException.new "bad index" "" "f" 10).detailedMessage = "f :bad index"
      ∧ independentSegments (PCLException.new "bad index" "" "f" 10) = "f @ 10 :bad index"
      ∧ (PCLException.new "bad index" "" "f" 10).detailedMessage
          ≠ independentSegments (PCLException.new "bad index" "" "f" 10))
    ∧ ((PCLException.new nulDescription "m.cpp" "f" 10).detailedMessage
          = "f in m.cpp @ 10 :bad"
      ∧ (PCLException.new nulDescription "m.cpp" "f" 10).detailedMessage
          ≠ independentSegments (PCLException.new nulDescription "m.cpp" "f" 10)) := by
  decide

/-- C3, amended: for every exception the detailed message is the function
segment (present iff the function name is non-empty), then the file segment
(present iff the file name is non-empty), then the line segment (present iff
the file name is non-empty and the line number is non-zero), then `":"` and the
description up to its first NUL character, which is the whole description when
it holds no NUL character. -/
theorem detailedMessage_segments (e : PCLException) :
    e.detailedMessage
        = (if e.function_name_ ≠ "" then e.function_name_ ++ " " else "")
          ++ (if e.file_name_ ≠ "" then "in " ++ e.file_name_ ++ " " else "")
          ++ (if e.file_name_ ≠ "" ∧ e.line_number_ ≠ 0 then
                "@ " ++ Nat.repr e.line_number_ ++ " " else "")
          ++ ":" ++ cstr e.what
    ∧ (Char.ofNat 0 ∉ e.what.data → cstr e.what = e.what) := by
  refine ⟨?_, cstr_of_no_nul e.what⟩
  apply String.ext
  by_cases hf : e.function_name_ = "" <;> by_cases hm : e.file_name_ = "" <;>
    by_cases hn : e.line_number_ = 0 <;>
    simp [PCLException.detailedMessage, StringStream.put,
      StringStream.putUnsigned, StringStream.str, StringStream.empty, hf, hm, hn]

/-- C3, amended, at function `f`, an empty file name, line 10 and the
description `bad index`, which holds no NUL character: the message is
`f :bad index`, with the function segment and without file and line segment. -/
theorem detailedMessage_segments_witness :
    Char.ofNat 0 ∉ (PCLException.new "bad index" "" "f" 10).what.data
    ∧ (PCLException.new "bad index" "" "f" 10).detailedMessage = "f :bad index" :=
  ⟨by decide,
   ((detailedMessage_segments (PCLException.new "bad index" "" "f" 10)).1).trans
     (by decide)⟩

/-- C4: whenever the rendering of the format string is shorter than the
1024-byte scratch buffer, `throwPCLException (function, file, line, format,
...)` does not return normally: it raises a `PCLException` whose `what ()` is
the rendered message as the C string held in the buffer (the whole rendering
when it has no NUL character, as for a format string without conversion
specifiers), whose `getFileName ()` is the given file, whose
`getFunctionName ()` is the given function and whose `getLineNumber ()` is the
given line. -/
theorem throwPCLException_raises {Args : Type} (vsprintf : String → Args → String)
    (function file : String) (line : Nat) (format : String) (args : Args)
    (hfit : (vsprintf format args).utf8ByteSize < msgCapacity) :
    throwPCLException vsprintf function file line format args ≠ Outcome.returned ∧
    ∃ e, throwPCLException vsprintf function file line format args = Outcome.raised e
      ∧ e.what = cstr (vsprintf format args)
      ∧ (Char.ofNat 0 ∉ (vsprintf format args).data → e.what = vsprintf format args)
      ∧ e.getFileName = file ∧ e.getFunctionName = function ∧ e.getLineNumber = line := by
  refine ⟨by simp [throwPCLException, hfit], ?_⟩
  refine ⟨PCLException.new (cstr (vsprintf format args)) file function line,
    by simp [throwPCLException, hfit], rfl, ?_, rfl, rfl, rfl⟩
  intro h
  exact cstr_of_no_nul _ h

/-- C4 at function `f`, file `m.cpp`, line 10 and the format string
`bad index`, which has no conversion specifier: the call raises the exception
with description `bad index`, file `m.cpp`, function `f` and line 10. -/
theorem throwPCLException_raises_witness :
    (vsprintfPlain "bad index" ()).utf8ByteSize < msgCapacity ∧
    throwPCLException vsprintfPlain "f" "m.cpp" 10 "bad index" ()
      = Outcome.raised ⟨"bad index", "m.cpp", "f", 10⟩ := by
  refine ⟨by decide, ?_⟩
  obtain ⟨_, e, he, hw, _, hfile, hfun, hline⟩ :=
    throwPCLException_raises vsprintfPlain "f" "m.cpp" 10 "bad index" () (by decide)
  rw [he]
  cases e
  simp only [PCLException.getFileName, PCLException.getFunctionName,
    PCLException.getLineNumber] at hfile hfun hline
  simp only at hw
  subst hw hfile hfun hline
  decide

/-- C10 as stated fails: with function `f`, file `m.cpp`, line 10 and
description `bad index` the message is `f in m.cpp @ 10 :bad index`, not
`f in m.cpp @ 10: bad index`; and with the description `bad\0index` the
message is `f in m.cpp @ 10 :bad`, which ends with neither `": "` nor `" :"`
followed by the whole description. -/
theorem detailedMessage_colon_space_fails :
    ("f" ≠ "" ∧ "m.cpp" ≠ "" ∧ (10 : Nat) ≠ 0) ∧
    ((PCLException.new "bad index" "m.cpp" "f" 10).detailedMessage
        = "f in m.cpp @ 10 :bad index"
      ∧ (PCLException.new "bad index" "m.cpp" "f" 10).detailedMessage
        ≠ "f" ++ " in " ++ "m.cpp" ++ " @ " ++ Nat.repr 10 ++ ": " ++ "bad index")
    ∧ ((PCLException.new nulDescription "m.cpp" "f" 10).detailedMessage
        = "f in m.cpp @ 10 :bad"
      ∧ (PCLException.new nulDescription "m.cpp" "f" 10).detailedMessage
        ≠ "f" ++ " in " ++ "m.cpp" ++ " @ " ++ Nat.repr 10 ++ ": " ++ nulDescription
      ∧ (PCLException.new nulDescription "m.cpp" "f" 10).detailedMessage
        ≠ "f" ++ " in " ++ "m.cpp" ++ " @ " ++ Nat.repr 10 ++ " :" ++ nulDescription) := by
  decide

/-- C10, amended: for every exception whose function name and file name are
non-empty and whose line number is non-zero, the formatted combined message is
the location part `<function> in <file> @ <line>`, then one space, then the
colon, then, directly after the colon, the description up to its first NUL
character; when the description holds no NUL character the message ends with
the whole description. -/
theorem detailedMessage_space_colon (e : PCLException)
    (hf : e.getFunctionName ≠ "") (hm : e.getFileName ≠ "") (hn : e.getLineNumber ≠ 0) :
    e.detailedMessage
        = (e.getFunctionName ++ " in " ++ e.getFileName ++ " @ " ++ Nat.repr e.getLineNumber)
            ++ " :" ++ cstr e.what
    ∧ (Char.ofNat 0 ∉ e.what.data →
        e.detailedMessage
          = (e.getFunctionName ++ " in " ++ e.getFileName ++ " @ "
              ++ Nat.repr e.getLineNumber) ++ " :" ++ e.what) := by
  have hmsg : e.detailedMessage
      = (e.getFunctionName ++ " in " ++ e.getFileName ++ " @ " ++ Nat.repr e.getLineNumber)
          ++ " :" ++ cstr e.what := by
    apply String.ext
    simp only [PCLException.getFunctionName, PCLException.getFileName,
      PCLException.getLineNumber] at hf hm hn
    simp [PCLException.detailedMessage, PCLException.getFunctionName,
      PCLException.getFileName, PCLException.getLineNumber, StringStream.put,
      StringStream.putUnsigned, StringStream.str, StringStream.empty, hf, hm, hn]
  refine ⟨hmsg, ?_⟩
  intro hd
  rw [hmsg, cstr_of_no_nul e.what hd]

/-- C10, amended, at function `f`, file `m.cpp`, line 10 and description
`bad index`: the message is `f in m.cpp @ 10 :bad index`. -/
theorem detailedMessage_space_colon_witness :
    ((⟨"bad index", "m.cpp", "f", 10⟩ : PCLException).getFunctionName ≠ ""
      ∧ (⟨"bad index", "m.cpp", "f", 10⟩ : PCLException).getFileName ≠ ""
      ∧ (⟨"bad index", "m.cpp", "f", 10⟩ : PCLException).getLineNumber ≠ 0) ∧
    (⟨"bad index", "m.cpp", "f", 10⟩ : PCLException).detailedMessage
      = "f in m.cpp @ 10 :bad index" :=
  ⟨by decide,
   ((detailedMessage_space_colon ⟨"bad index", "m.cpp", "f", 10⟩
      (by decide) (by decide) (by decide)).1).trans (by decide)⟩

end pcl

/-! # Part 2: theorems about the matrix handle -/

namespace pcl2

/-- A reference that dereferences to a storage is below the size of the arena. -/
theorem implAt_lt {α : Type} : ∀ (h : Arena α) (p : Nat) (s : MatImpl α),
    implAt h p = some s → p < h.length
  | [], _, _, hs => by simp [implAt] at hs
  | t :: rest, p, s, hs => by
    by_cases hp : p = rest.length
    · simp [hp]
    · simp only [implAt, hp, if_false] at hs
      have := implAt_lt rest p s hs
      simp; omega

/-- A write allocates nothing: the arena keeps its size. -/
theorem setElem_length {α : Type} : ∀ (h : Arena α) (p r c : Nat) (v : α) (h' : Arena α),
    setElem h p r c v = some h' → h'.length = h.length
  | [], _, _, _, _, _, hs => by simp [setElem] at hs
  | t :: rest, p, r, c, v, h', hs => by
    by_cases hp : p = rest.length
    · cases t with
      | owned rows cols buf =>
        simp only [setElem, hp, if_true] at hs
        split at hs
        · cases hs; simp
        · cases hs
      | view src rowMap cols =>
        simp only [setElem, hp, if_true] at hs
        split at hs
        · split at hs
          · rename_i r' _
            cases hq : setElem rest src r' c v with
            | none => simp [hq] at hs
            | some rest' =>
              simp [hq] at hs
              subst hs
              simp [setElem_length rest src r' c v rest' hq]
          · cases hs
        · cases hs
    · simp only [setElem, hp, if_false] at hs
      cases hq : setElem rest p r c v with
      | none => simp [hq] at hs
      | some rest' =>
        simp [hq] at hs
        subst hs
        simp [setElem_length rest p r c v rest' hq]

/-- Read after write: the element written through a storage is read back
through the same storage at the same position. -/
theorem elemAt_setElem_same {α : Type} : ∀ (h : Arena α) (p r c : Nat) (v : α) (h' : Arena α),
    setElem h p r c v = some h' → elemAt h' p r c = some v
  | [], _, _, _, _, _, hs => by simp [setElem] at hs
  | t :: rest, p, r, c, v, h', hs => by
    by_cases hp : p = rest.length
    · cases t with
      | owned rows cols buf =>
        simp only [setElem, hp, if_true] at hs
        split at hs
        · rename_i hb
          cases hs
          simp [elemAt, hp, hb.1, hb.2.1, hb.2.2]
        · cases hs
      | view src rowMap cols =>
        simp only [setElem, hp, if_true] at hs
        split at hs
        · rename_i hc
          split at hs
          · rename_i r' hr
            cases hq : setElem rest src r' c v with
            | none => simp [hq] at hs
            | some rest' =>
              simp [hq] at hs
              subst hs
              have hl := setElem_length rest src r' c v rest' hq
              simp [elemAt, hp, hl, hc, hr, elemAt_setElem_same rest src r' c v rest' hq]
          · cases hs
        · cases hs
    · simp only [setElem, hp, if_false] at hs
      cases hq : setElem rest p r c v with
      | none => simp [hq] at hs
      | some rest' =>
        simp [hq] at hs
        subst hs
        have hl := setElem_length rest p r c v rest' hq
        simp [elemAt, hp, hl, elemAt_setElem_same rest p r c v rest' hq]


/-- The storage invariant of an arena holds for the older part of it. -/
theorem wellFormed_tail {α : Type} (t : MatImpl α) (rest : Arena α)
    (h : wellFormed (t :: rest) = true) : wellFormed rest = true := by
  cases t <;> simp [wellFormed] at h <;> exact h.2

/-- The row-major cell of an in-bounds position lies inside the buffer. -/
theorem cell_lt {r c rows cols : Nat} (hr : r < rows) (hc : c < cols) :
    r * cols + c < rows * cols := by
  have h1 : r * cols + c < (r + 1) * cols := by rw [Nat.add_mul]; omega
  have h2 : (r + 1) * cols ≤ rows * cols := Nat.mul_le_mul_right cols hr
  omega

/-- Under the storage invariant every in-bounds write succeeds. -/
theorem setElem_ok {α : Type} : ∀ (h : Arena α) (p r c : Nat) (v : α) (s : MatImpl α),
    wellFormed h = true → implAt h p = some s → r < s.rows → c < s.cols →
    ∃ h', setElem h p r c v = some h'
  | [], _, _, _, _, _, _, hs, _, _ => by simp [implAt] at hs
  | t :: rest, p, r, c, v, s, hwf, hs, hr, hc => by
    have hwf' := wellFormed_tail t rest hwf
    by_cases hp : p = rest.length
    · simp only [implAt, hp, if_true, Option.some.injEq] at hs
      subst hs
      cases t with
      | owned rows cols buf =>
        simp only [wellFormed, Bool.and_eq_true, beq_iff_eq] at hwf
        simp only [MatImpl.rows, MatImpl.cols] at hr hc
        have hb : r * cols + c < buf.length := by rw [hwf.1]; exact cell_lt hr hc
        exact ⟨MatImpl.owned rows cols (buf.set (r * cols + c) v) :: rest,
          by simp [setElem, hp, hr, hc, hb]⟩
      | view src rowMap cols =>
        simp only [MatImpl.rows, MatImpl.cols] at hr hc
        cases hsrc : implAt rest src with
        | none => simp [wellFormed, hsrc] at hwf
        | some s' =>
          simp only [wellFormed, hsrc, Bool.and_eq_true, beq_iff_eq, List.all_eq_true,
            decide_eq_true_eq] at hwf
          have hmem : rowMap[r] ∈ rowMap := List.getElem_mem hr
          have hr' : rowMap[r] < s'.rows := hwf.1.2 _ hmem
          have hc' : c < s'.cols := by rw [hwf.1.1]; exact hc
          obtain ⟨rest', hrest⟩ := setElem_ok rest src rowMap[r] c v s' hwf' hsrc hr' hc'
          exact ⟨MatImpl.view src rowMap cols :: rest',
            by simp [setElem, hp, hc, List.getElem?_eq_getElem hr, hrest]⟩
    · simp only [implAt, hp, if_false] at hs
      obtain ⟨rest', hrest⟩ := setElem_ok rest p r c v s hwf' hs hr hc
      exact ⟨t :: rest', by simp [setElem, hp, hrest]⟩

/-- Under the storage invariant every in-bounds read succeeds. -/
theorem elemAt_ok {α : Type} : ∀ (h : Arena α) (p r c : Nat) (s : MatImpl α),
    wellFormed h = true → implAt h p = some s → r < s.rows → c < s.cols →
    ∃ x, elemAt h p r c = some x
  | [], _, _, _, _, _, hs, _, _ => by simp [implAt] at hs
  | t :: rest, p, r, c, s, hwf, hs, hr, hc => by
    have hwf' := wellFormed_tail t rest hwf
    by_cases hp : p = rest.length
    · simp only [implAt, hp, if_true, Option.some.injEq] at hs
      subst hs
      cases t with
      | owned rows cols buf =>
        simp only [wellFormed, Bool.and_eq_true, beq_iff_eq] at hwf
        simp only [MatImpl.rows, MatImpl.cols] at hr hc
        have hb : r * cols + c < buf.length := by rw [hwf.1]; exact cell_lt hr hc
        exact ⟨buf[r * cols + c], by simp [elemAt, hp, hr, hc, List.getElem?_eq_getElem hb]⟩
      | view src rowMap cols =>
        simp only [MatImpl.rows, MatImpl.cols] at hr hc
        cases hsrc : implAt rest src with
        | none => simp [wellFormed, hsrc] at hwf
        | some s' =>
          simp only [wellFormed, hsrc, Bool.and_eq_true, beq_iff_eq, List.all_eq_true,
            decide_eq_true_eq] at hwf
          have hmem : rowMap[r] ∈ rowMap := List.getElem_mem hr
          have hr' : rowMap[r] < s'.rows := hwf.1.2 _ hmem
          have hc' : c < s'.cols := by rw [hwf.1.1]; exact hc
          obtain ⟨x, hx⟩ := elemAt_ok rest src rowMap[r] c s' hwf' hsrc hr' hc'
          exact ⟨x, by simp [elemAt, hp, hc, List.getElem?_eq_getElem hr, hx]⟩
    · simp only [implAt, hp, if_false] at hs
      obtain ⟨x, hx⟩ := elemAt_ok rest p r c s hwf' hs hr hc
      exact ⟨x, by simp [elemAt, hp, hx]⟩

/-- Allocation does not change what is read through an older storage. -/
theorem elemAt_cons_old {α : Type} (t : MatImpl α) (rest : Arena α) (p r c : Nat)
    (hp : p < rest.length) : elemAt (t :: rest) p r c = elemAt rest p r c := by
  have : p ≠ rest.length := Nat.ne_of_lt hp
  simp [elemAt, this]

/-- A write through an older storage leaves the newest storage object as it
is and writes in the older part of the arena. -/
theorem setElem_cons_old {α : Type} (t : MatImpl α) (rest : Arena α) (p r c : Nat) (v : α)
    (hp : p < rest.length) :
    setElem (t :: rest) p r c v = (setElem rest p r c v).map (fun rest' => t :: rest') := by
  have : p ≠ rest.length := Nat.ne_of_lt hp
  simp [setElem, this]

/-- Reading cells that all hold known values gives those values in order. -/
theorem readCells_map {α : Type} (f : Nat → Option α) (g : Nat → α) :
    ∀ ks : List Nat, (∀ k ∈ ks, f k = some (g k)) → readCells f ks = some (ks.map g)
  | [], _ => rfl
  | k :: ks, h => by
    have hk : f k = some (g k) := h k (List.mem_cons_self k ks)
    have hks := readCells_map f g ks (fun j hj => h j (List.mem_cons_of_mem k hj))
    simp [readCells, hk, hks]

/-- Reading cells that are all readable succeeds, one value per cell. -/
theorem readCells_ok {α : Type} (f : Nat → Option α) :
    ∀ ks : List Nat, (∀ k ∈ ks, ∃ x, f k = some x) →
      ∃ xs, readCells f ks = some xs ∧ xs.length = ks.length
  | [], _ => ⟨[], rfl, rfl⟩
  | k :: ks, h => by
    obtain ⟨x, hx⟩ := h k (List.mem_cons_self k ks)
    obtain ⟨xs, hxs, hlen⟩ := readCells_ok f ks (fun j hj => h j (List.mem_cons_of_mem k hj))
    exact ⟨x :: xs, by simp [readCells, hx, hxs], by simp [hlen]⟩


/-- A handle with a row count and a column count references a storage of
that shape. -/
theorem implAt_of_shape {α : Type} (heap : Arena α) (H : Mat) (R C : Nat)
    (hR : Mat.rows heap H = some R) (hC : Mat.cols heap H = some C) :
    ∃ s, implAt heap H.matrix_ptr_ = some s ∧ s.rows = R ∧ s.cols = C := by
  cases hs : implAt heap H.matrix_ptr_ with
  | none => simp [Mat.rows, hs] at hR
  | some s =>
    simp only [Mat.rows, hs, Option.map_some', Option.some.injEq] at hR
    simp only [Mat.cols, hs, Option.map_some', Option.some.injEq] at hC
    exact ⟨s, rfl, hR, hC⟩

/-- Under the storage invariant `copy` succeeds: it pushes an owned buffer of
the shape of the source, of full size, and returns the handle to it. -/
theorem copy_eq {α : Type} (heap : Arena α) (H : Mat) (s : MatImpl α)
    (hwf : wellFormed heap = true) (hs : implAt heap H.matrix_ptr_ = some s) :
    ∃ buf : List α, buf.length = s.rows * s.cols ∧
      Mat.copy heap H = .ok (MatImpl.owned s.rows s.cols buf :: heap, ⟨heap.length⟩) := by
  have hall : ∀ k ∈ List.range (s.rows * s.cols),
      ∃ x, elemAt heap H.matrix_ptr_ (k / s.cols) (k % s.cols) = some x := by
    intro k hk
    have hk' : k < s.rows * s.cols := List.mem_range.mp hk
    have hcpos : 0 < s.cols := by
      rcases Nat.eq_zero_or_pos s.cols with h0 | h0
      · rw [h0] at hk'; simp at hk'
      · exact h0
    have hr : k / s.cols < s.rows := (Nat.div_lt_iff_lt_mul hcpos).mpr hk'
    exact elemAt_ok heap H.matrix_ptr_ _ _ s hwf hs hr (Nat.mod_lt k hcpos)
  obtain ⟨buf, hbuf, hlen⟩ := readCells_ok _ _ hall
  refine ⟨buf, by simpa using hlen, ?_⟩
  simp [Mat.copy, hs, hbuf]

/-- The row count seen through the handle of a freshly allocated storage. -/
theorem rows_push {α : Type} (t : MatImpl α) (heap : Arena α) :
    Mat.rows (t :: heap) ⟨heap.length⟩ = some t.rows := by
  simp [Mat.rows, implAt]

/-- The column count seen through the handle of a freshly allocated storage. -/
theorem cols_push {α : Type} (t : MatImpl α) (heap : Arena α) :
    Mat.cols (t :: heap) ⟨heap.length⟩ = some t.cols := by
  simp [Mat.cols, implAt]

/-- An index matrix with `N` rows whose entries in column 0 are `ix 0`, ...,
`ix (N - 1)` is read as that sequence. -/
theorem readIndices_eq (iheap : Arena Int) (I : Mat) (N : Nat) (ix : Nat → Int)
    (hN : Mat.rows iheap I = some N)
    (hix : ∀ i, i < N → elemAt iheap I.matrix_ptr_ i 0 = some (ix i)) :
    readIndices iheap I = some ((List.range N).map ix) := by
  cases hi : implAt iheap I.matrix_ptr_ with
  | none => simp [Mat.rows, hi] at hN
  | some si =>
    simp only [Mat.rows, hi, Option.map_some', Option.some.injEq] at hN
    simp only [readIndices, hi, hN]
    exact readCells_map _ ix _ (fun k hk => hix k (List.mem_range.mp hk))

/-- With valid indices the view operator succeeds: it pushes a view storage
whose re-mapping table is the index sequence and returns the handle to it. -/
theorem view_eq {α : Type} (heap : Arena α) (H : Mat) (iheap : Arena Int) (I : Mat)
    (s : MatImpl α) (N : Nat) (ix : Nat → Int)
    (hs : implAt heap H.matrix_ptr_ = some s)
    (hN : Mat.rows iheap I = some N)
    (hix : ∀ i, i < N → elemAt iheap I.matrix_ptr_ i 0 = some (ix i))
    (hvalid : ∀ i, i < N → 0 ≤ ix i ∧ ix i < (s.rows : Int)) :
    Mat.view heap H iheap I
      = .ok (MatImpl.view H.matrix_ptr_ ((List.range N).map (fun i => (ix i).toNat)) s.cols
              :: heap, ⟨heap.length⟩) := by
  have hread := readIndices_eq iheap I N ix hN hix
  have hall : ((List.range N).map ix).all
      (fun k => decide (0 ≤ k ∧ k < (s.rows : Int))) = true := by
    simp only [List.all_eq_true, List.mem_map, List.mem_range, decide_eq_true_eq]
    rintro k ⟨i, hi, rfl⟩
    exact hvalid i hi
  simp only [Mat.view, hs, hread, hall, if_true, List.map_map]
  rfl

/-- C8: for every matrix handle `H` with `R` rows and `C` columns and every
`N` by 1 index matrix `I` whose entries `ix 0`, ..., `ix (N - 1)` are valid row
indices of `H`, the view `H(I)` is made and has exactly `N` rows and exactly
`C` columns. -/
theorem view_shape {α : Type} (heap : Arena α) (H : Mat) (iheap : Arena Int) (I : Mat)
    (R C N : Nat) (ix : Nat → Int)
    (hR : Mat.rows heap H = some R) (hC : Mat.cols heap H = some C)
    (hN : Mat.rows iheap I = some N) (_hcol : Mat.cols iheap I = some 1)
    (hix : ∀ i, i < N → elemAt iheap I.matrix_ptr_ i 0 = some (ix i))
    (hvalid : ∀ i, i < N → 0 ≤ ix i ∧ ix i < (R : Int)) :
    ∃ heap1 V, Mat.view heap H iheap I = .ok (heap1, V)
      ∧ Mat.rows heap1 V = some N ∧ Mat.cols heap1 V = some C := by
  obtain ⟨s, hs, hsR, hsC⟩ := implAt_of_shape heap H R C hR hC
  have hv := view_eq heap H iheap I s N ix hs hN hix (by rw [hsR]; exact hvalid)
  refine ⟨_, _, hv, ?_, ?_⟩
  · rw [rows_push]; simp [MatImpl.rows]
  · rw [cols_push]; exact congrArg some hsC

/-- C6: for every matrix handle `H` with `R` rows, building a view from an
`N` by 1 index matrix that has an entry outside `0 ≤ index < R` raises the
invariant-violation error and returns no matrix: the index is neither clamped
nor wrapped. -/
theorem view_rejects {α : Type} (heap : Arena α) (H : Mat) (iheap : Arena Int) (I : Mat)
    (R N : Nat) (ix : Nat → Int)
    (hR : Mat.rows heap H = some R)
    (hN : Mat.rows iheap I = some N) (_hcol : Mat.cols iheap I = some 1)
    (hix : ∀ i, i < N → elemAt iheap I.matrix_ptr_ i 0 = some (ix i))
    (hbad : ∃ i, i < N ∧ (ix i < 0 ∨ (R : Int) ≤ ix i)) :
    Mat.view heap H iheap I = .error MatError.invariantViolation := by
  cases hs : implAt heap H.matrix_ptr_ with
  | none => simp [Mat.rows, hs] at hR
  | some s =>
    simp only [Mat.rows, hs, Option.map_some', Option.some.injEq] at hR
    have hread := readIndices_eq iheap I N ix hN hix
    obtain ⟨i, hi, hout⟩ := hbad
    have hall : ((List.range N).map ix).all
        (fun k => decide (0 ≤ k ∧ k < (s.rows : Int))) = false := by
      cases hb : ((List.range N).map ix).all
          (fun k => decide (0 ≤ k ∧ k < (s.rows : Int))) with
      | false => rfl
      | true =>
        rw [List.all_eq_true] at hb
        have hin := hb (ix i) (List.mem_map.mpr ⟨i, List.mem_range.mpr hi, rfl⟩)
        rw [decide_eq_true_eq, hR] at hin
        omega
    simp only [Mat.view, hs, hread, hall]
    rfl

/-- C9: for every matrix handle `H` (with `R` rows and `C` columns, in an
arena that satisfies the storage invariant) `H.copy ()` is made and has the
shape of `H`: `R` rows and `C` columns. -/
theorem copy_shape {α : Type} (heap : Arena α) (H : Mat) (R C : Nat)
    (hwf : wellFormed heap = true)
    (hR : Mat.rows heap H = some R) (hC : Mat.cols heap H = some C) :
    ∃ heap1 K, Mat.copy heap H = .ok (heap1, K)
      ∧ Mat.rows heap1 K = some R ∧ Mat.cols heap1 K = some C := by
  obtain ⟨s, hs, hsR, hsC⟩ := implAt_of_shape heap H R C hR hC
  obtain ⟨buf, _, hcopy⟩ := copy_eq heap H s hwf hs
  refine ⟨_, _, hcopy, ?_, ?_⟩
  · rw [rows_push]; exact congrArg some hsR
  · rw [cols_push]; exact congrArg some hsC


/-- A read through the newest storage, a view, is the read of the re-mapped
row of its source. -/
theorem elemAt_view_new {α : Type} (src : Nat) (rowMap : List Nat) (cols : Nat)
    (rest : Arena α) (q r c r' : Nat) (hq : q = rest.length) (hc : c < cols)
    (hr : rowMap[r]? = some r') :
    elemAt (MatImpl.view src rowMap cols :: rest) q r c = elemAt rest src r' c := by
  simp [elemAt, hq, hc, hr]

/-- A write through the newest storage, a view, is the write to the re-mapped
row of its source. -/
theorem setElem_view_new {α : Type} (src : Nat) (rowMap : List Nat) (cols : Nat)
    (rest : Arena α) (q r c r' : Nat) (v : α) (hq : q = rest.length) (hc : c < cols)
    (hr : rowMap[r]? = some r') :
    setElem (MatImpl.view src rowMap cols :: rest) q r c v
      = (setElem rest src r' c v).map (fun rest' => MatImpl.view src rowMap cols :: rest') := by
  simp [setElem, hq, hc, hr]

/-- C5: for every matrix handle `H` (with `R` rows and `C` columns, in an
arena that satisfies the storage invariant) and every `N` by 1 index matrix
`I` whose entries `ix 0`, ..., `ix (N - 1)` are valid row indices of `H`, the
view `H(I)` is made and, for every in-bounds `(i, j)`: element `(i, j)` of the
view reads as element `(I[i], j)` of `H`; writing a value through element
`(i, j)` of the view makes element `(I[i], j)` of `H` read back that value; and
writing element `(I[i], j)` of `H` is read back through element `(i, j)` of the
view. Row `i` of the view is row `I[i]` of `H`, in the order of `I` and with its
repetitions. -/
theorem view_aliases {α : Type} (heap : Arena α) (H : Mat) (iheap : Arena Int) (I : Mat)
    (R C N : Nat) (ix : Nat → Int)
    (hwf : wellFormed heap = true)
    (hR : Mat.rows heap H = some R) (hC : Mat.cols heap H = some C)
    (hN : Mat.rows iheap I = some N) (_hcol : Mat.cols iheap I = some 1)
    (hix : ∀ i, i < N → elemAt iheap I.matrix_ptr_ i 0 = some (ix i))
    (hvalid : ∀ i, i < N → 0 ≤ ix i ∧ ix i < (R : Int)) :
    ∃ heap1 V, Mat.view heap H iheap I = .ok (heap1, V) ∧
      ∀ i j, i < N → j < C →
        elemAt heap1 V.matrix_ptr_ i j = elemAt heap1 H.matrix_ptr_ (ix i).toNat j ∧
        ∀ v : α,
          (∃ heap2, setElem heap1 V.matrix_ptr_ i j v = some heap2 ∧
            elemAt heap2 H.matrix_ptr_ (ix i).toNat j = some v) ∧
          (∃ heap3, setElem heap1 H.matrix_ptr_ (ix i).toNat j v = some heap3 ∧
            elemAt heap3 V.matrix_ptr_ i j = some v) := by
  obtain ⟨s, hs, hsR, hsC⟩ := implAt_of_shape heap H R C hR hC
  have hv := view_eq heap H iheap I s N ix hs hN hix (by rw [hsR]; exact hvalid)
  have hp : H.matrix_ptr_ < heap.length := implAt_lt heap _ s hs
  refine ⟨_, _, hv, ?_⟩
  intro i j hi hj
  have hjs : j < s.cols := by rw [hsC]; exact hj
  have hrow : ((List.range N).map (fun i => (ix i).toNat))[i]? = some (ix i).toNat := by
    simp [List.getElem?_map, List.getElem?_range hi]
  have hri : (ix i).toNat < s.rows := by
    have := hvalid i hi
    rw [hsR]; omega
  refine ⟨?_, ?_⟩
  · rw [elemAt_view_new _ _ _ heap _ i j _ rfl hjs hrow, elemAt_cons_old _ heap _ _ _ hp]
  · intro v
    obtain ⟨rest', hrest⟩ := setElem_ok heap H.matrix_ptr_ (ix i).toNat j v s hwf hs hri hjs
    have hlen := setElem_length heap _ _ _ v rest' hrest
    have hback := elemAt_setElem_same heap _ _ _ v rest' hrest
    refine ⟨⟨MatImpl.view H.matrix_ptr_ ((List.range N).map (fun i => (ix i).toNat)) s.cols
              :: rest', ?_, ?_⟩,
            ⟨MatImpl.view H.matrix_ptr_ ((List.range N).map (fun i => (ix i).toNat)) s.cols
              :: rest', ?_, ?_⟩⟩
    · rw [setElem_view_new _ _ _ heap _ i j _ v rfl hjs hrow, hrest]; rfl
    · rw [elemAt_cons_old _ rest' _ _ _ (by rw [hlen]; exact hp)]; exact hback
    · rw [setElem_cons_old _ heap _ _ _ v hp, hrest]; rfl
    · rw [elemAt_view_new _ _ _ rest' _ i j _ hlen.symm hjs hrow]; exact hback

/-- C7: for every matrix handle `H` (with `R` rows and `C` columns, in an
arena that satisfies the storage invariant) and every in-bounds `(r, c)`:
`H.copy ()` is made; writing element `(r, c)` of the copy leaves every element
of `H` unchanged; and writing element `(r, c)` of `H` after the copy was taken
leaves every element of the copy unchanged. -/
theorem copy_independent {α : Type} (heap : Arena α) (H : Mat) (R C r c : Nat) (v : α)
    (hwf : wellFormed heap = true)
    (hR : Mat.rows heap H = some R) (hC : Mat.cols heap H = some C)
    (hr : r < R) (hc : c < C) :
    ∃ heap1 K, Mat.copy heap H = .ok (heap1, K) ∧
      (∃ heap2, setElem heap1 K.matrix_ptr_ r c v = some heap2 ∧
        ∀ r' c', elemAt heap2 H.matrix_ptr_ r' c' = elemAt heap1 H.matrix_ptr_ r' c') ∧
      (∃ heap3, setElem heap1 H.matrix_ptr_ r c v = some heap3 ∧
        ∀ r' c', elemAt heap3 K.matrix_ptr_ r' c' = elemAt heap1 K.matrix_ptr_ r' c') := by
  obtain ⟨s, hs, hsR, hsC⟩ := implAt_of_shape heap H R C hR hC
  obtain ⟨buf, hbuf, hcopy⟩ := copy_eq heap H s hwf hs
  have hp : H.matrix_ptr_ < heap.length := implAt_lt heap _ s hs
  have hrs : r < s.rows := by rw [hsR]; exact hr
  have hcs : c < s.cols := by rw [hsC]; exact hc
  refine ⟨_, _, hcopy, ?_, ?_⟩
  · have hb : r * s.cols + c < buf.length := by rw [hbuf]; exact cell_lt hrs hcs
    refine ⟨MatImpl.owned s.rows s.cols (buf.set (r * s.cols + c) v) :: heap, ?_, ?_⟩
    · simp [setElem, hrs, hcs, hb]
    · intro r' c'
      rw [elemAt_cons_old _ heap _ _ _ hp, elemAt_cons_old _ heap _ _ _ hp]
  · obtain ⟨rest', hrest⟩ := setElem_ok heap H.matrix_ptr_ r c v s hwf hs hrs hcs
    have hlen := setElem_length heap _ _ _ v rest' hrest
    refine ⟨MatImpl.owned s.rows s.cols buf :: rest', ?_, ?_⟩
    · rw [setElem_cons_old _ heap _ _ _ v hp, hrest]; rfl
    · intro r' c'
      simp [elemAt, hlen]

/-- C8 on the 3 by 2 matrix of `demoHeap` and the index matrix `[2, 0, 2]`:
the view has 3 rows and 2 columns. -/
theorem view_shape_witness :
    (Mat.rows demoHeap demoH = some 3 ∧ Mat.cols demoHeap demoH = some 2
      ∧ Mat.rows demoIndexHeap demoI = some 3 ∧ Mat.cols demoIndexHeap demoI = some 1
      ∧ (∀ i, i < 3 → elemAt demoIndexHeap demoI.matrix_ptr_ i 0 = some (demoIx i))
      ∧ (∀ i, i < 3 → 0 ≤ demoIx i ∧ demoIx i < ((3 : Nat) : Int))) ∧
    ∃ heap1 V, Mat.view demoHeap demoH demoIndexHeap demoI = .ok (heap1, V)
      ∧ Mat.rows heap1 V = some 3 ∧ Mat.cols heap1 V = some 2 :=
  ⟨by decide,
   view_shape demoHeap demoH demoIndexHeap demoI 3 2 3 demoIx
     (by decide) (by decide) (by decide) (by decide) (by decide) (by decide)⟩

/-- C6 on the 3-row matrix of `demoHeap`: the single index 3 (the row count)
and the single index -1 are both rejected. -/
theorem view_rejects_witness :
    (Mat.rows demoHeap demoH = some 3
      ∧ Mat.rows tooLargeIndexHeap demoI = some 1 ∧ Mat.cols tooLargeIndexHeap demoI = some 1
      ∧ elemAt tooLargeIndexHeap demoI.matrix_ptr_ 0 0 = some 3
      ∧ Mat.rows negativeIndexHeap demoI = some 1 ∧ Mat.cols negativeIndexHeap demoI = some 1
      ∧ elemAt negativeIndexHeap demoI.matrix_ptr_ 0 0 = some (-1)) ∧
    Mat.view demoHeap demoH tooLargeIndexHeap demoI = .error MatError.invariantViolation
    ∧ Mat.view demoHeap demoH negativeIndexHeap demoI = .error MatError.invariantViolation :=
  ⟨by decide,
   view_rejects demoHeap demoH tooLargeIndexHeap demoI 3 1 (fun _ => 3)
     (by decide) (by decide) (by decide) (by decide) ⟨0, by decide, by decide⟩,
   view_rejects demoHeap demoH negativeIndexHeap demoI 3 1 (fun _ => -1)
     (by decide) (by decide) (by decide) (by decide) ⟨0, by decide, by decide⟩⟩

/-- C9 on the 3 by 2 matrix of `demoHeap`: the copy has 3 rows and 2
columns. -/
theorem copy_shape_witness :
    (wellFormed demoHeap = true ∧ Mat.rows demoHeap demoH = some 3
      ∧ Mat.cols demoHeap demoH = some 2) ∧
    ∃ heap1 K, Mat.copy demoHeap demoH = .ok (heap1, K)
      ∧ Mat.rows heap1 K = some 3 ∧ Mat.cols heap1 K = some 2 :=
  ⟨by decide, copy_shape demoHeap demoH 3 2 (by decide) (by decide) (by decide)⟩

/-- C5 on the 3 by 2 matrix of `demoHeap` and the index matrix `[2, 0, 2]`:
view rows 0 and 2 both alias row 2 of the matrix and view row 1 aliases row
0, for reads and for writes in both directions. -/
theorem view_aliases_witness :
    (wellFormed demoHeap = true
      ∧ Mat.rows demoHeap demoH = some 3 ∧ Mat.cols demoHeap demoH = some 2
      ∧ Mat.rows demoIndexHeap demoI = some 3 ∧ Mat.cols demoIndexHeap demoI = some 1
      ∧ (∀ i, i < 3 → elemAt demoIndexHeap demoI.matrix_ptr_ i 0 = some (demoIx i))
      ∧ (∀ i, i < 3 → 0 ≤ demoIx i ∧ demoIx i < ((3 : Nat) : Int))
      ∧ (demoIx 0).toNat = 2 ∧ (demoIx 1).toNat = 0 ∧ (demoIx 2).toNat = 2) ∧
    ∃ heap1 V, Mat.view demoHeap demoH demoIndexHeap demoI = .ok (heap1, V) ∧
      ∀ i j, i < 3 → j < 2 →
        elemAt heap1 V.matrix_ptr_ i j = elemAt heap1 demoH.matrix_ptr_ (demoIx i).toNat j ∧
        ∀ v : Int,
          (∃ heap2, setElem heap1 V.matrix_ptr_ i j v = some heap2 ∧
            elemAt heap2 demoH.matrix_ptr_ (demoIx i).toNat j = some v) ∧
          (∃ heap3, setElem heap1 demoH.matrix_ptr_ (demoIx i).toNat j v = some heap3 ∧
            elemAt heap3 V.matrix_ptr_ i j = some v) :=
  ⟨by decide,
   view_aliases demoHeap demoH demoIndexHeap demoI 3 2 3 demoIx
     (by decide) (by decide) (by decide) (by decide) (by decide) (by decide) (by decide)⟩

/-- C7 on the 3 by 2 matrix of `demoHeap`, position `(1, 1)` and value 99. -/
theorem copy_independent_witness :
    (wellFormed demoHeap = true ∧ Mat.rows demoHeap demoH = some 3
      ∧ Mat.cols demoHeap demoH = some 2 ∧ 1 < 3 ∧ 1 < 2) ∧
    ∃ heap1 K, Mat.copy demoHeap demoH = .ok (heap1, K) ∧
      (∃ heap2, setElem heap1 K.matrix_ptr_ 1 1 (99 : Int) = some heap2 ∧
        ∀ r' c', elemAt heap2 demoH.matrix_ptr_ r' c' = elemAt heap1 demoH.matrix_ptr_ r' c') ∧
      (∃ heap3, setElem heap1 demoH.matrix_ptr_ 1 1 (99 : Int) = some heap3 ∧
        ∀ r' c', elemAt heap3 K.matrix_ptr_ r' c' = elemAt heap1 K.matrix_ptr_ r' c') :=
  ⟨by decide,
   copy_independent demoHeap demoH 3 2 1 1 99
     (by decide) (by decide) (by decide) (by decide) (by decide)⟩

end pcl2
